import Mathlib

/-!
Verification of the fleet reconciliation daemon core:
the GitHub repository discoverer with its TTL-bounded disk cache
(`src/services/github-repo-discovery.ts`) and the secrets sync daemon
with its process lock, scheduler loop and persisted sync ledger
(`src/services/secrets-sync-daemon.ts`).

Each TypeScript function is embedded shallowly: filesystem contents are
explicit values threaded through the functions, wall-clock instants are
integers (milliseconds since epoch), and the external collaborators
(the paginated listing transport and the sync executor) are parameters.
-/

namespace Foundation

/-! ## Repository discovery: data model (github-repo-discovery.ts) -/

/-- `Repository`: the normalized discovery result.  The TypeScript field
`private` is a Lean keyword, hence the guillemets. -/
structure Repository where
  name : String
  full_name : String
  «private» : Bool
  archived : Bool
  fork : Bool
  created_at : String
  updated_at : String
  clone_url : String
  ssh_url : String
deriving DecidableEq, Repr

/-- `DiscoveryConfig`: organization plus inclusion/exclusion filters. -/
structure DiscoveryConfig where
  organization : String
  includeArchived : Bool
  includePrivate : Bool
  excludeRepos : List String
deriving DecidableEq, Repr

/-- `CacheData`: the persisted cache entry.  `lastFetch` is the fetch
instant in milliseconds since epoch (the source stores an ISO string and
compares `Date.getTime()` values). -/
structure CacheData where
  repositories : List Repository
  lastFetch : Int
  organization : String
deriving DecidableEq, Repr

/-- `CACHE_TTL_HOURS = 1` in the source. -/
def CACHE_TTL_HOURS : Int := 1

/-- The TTL in milliseconds: the source compares
`(now - lastFetch) / (1000*60*60) < CACHE_TTL_HOURS`, which over the
reals is exactly `now - lastFetch < CACHE_TTL_HOURS * 3600000`. -/
def CACHE_TTL_MS : Int := CACHE_TTL_HOURS * 3600000

/-- The cache file on disk: `none` = no file, `some none` = a file that
fails to read or parse (the source swallows the error and misses),
`some (some c)` = a well-formed entry. -/
abbrev CacheDisk := Option (Option CacheData)

/-- `getCachedRepos`: return the cached list only when the file exists,
parses, is younger than the TTL and was fetched for the configured
organization; otherwise `none`. -/
def getCachedRepos (config : DiscoveryConfig) (now : Int) (disk : CacheDisk) :
    Option (List Repository) :=
  match disk with
  | none => none
  | some none => none
  | some (some cacheData) =>
    if now - cacheData.lastFetch < CACHE_TTL_MS ∧
        cacheData.organization = config.organization then
      some cacheData.repositories
    else
      none

/-- `cacheRepos`: replace the cache file wholesale with the fetched list,
stamped with the current instant and the configured organization. -/
def cacheRepos (config : DiscoveryConfig) (now : Int) (repos : List Repository) :
    CacheDisk :=
  some (some { repositories := repos, lastFetch := now,
               organization := config.organization })

/-- `filterRepositories`: drop archived unless `includeArchived`, drop
private unless `includePrivate`, drop names listed in `excludeRepos`
(the source skips the third filter when the exclusion list is empty). -/
def filterRepositories (config : DiscoveryConfig) (repos : List Repository) :
    List Repository :=
  let f1 := if config.includeArchived then repos
            else repos.filter (fun r => !r.archived)
  let f2 := if config.includePrivate then f1
            else f1.filter (fun r => !r.«private»)
  if config.excludeRepos.length > 0 then
    f2.filter (fun r => !config.excludeRepos.contains r.name)
  else
    f2

/-- The per-repository predicate the three filters amount to. -/
def keepRepo (config : DiscoveryConfig) (r : Repository) : Bool :=
  (config.includeArchived || !r.archived) &&
  (config.includePrivate || !r.«private») &&
  !config.excludeRepos.contains r.name

/-! ## Repository discovery: paginated fetch and `discoverRepositories` -/

/-- `perPage = 100` in the source. -/
def perPage : Nat := 100

/-- The paginated listing transport, modelled by the full remote list:
page `p` (1-based) of the organization's repositories. -/
def pageOf (remote : List Repository) (p : Nat) : List Repository :=
  (remote.drop ((p - 1) * perPage)).take perPage

/-- The source's `while (true)` fetch loop, with explicit fuel (the loop
terminates because each full page consumes `perPage` remote entries):
fetch a page; stop on an empty page; otherwise accumulate it and stop as
soon as the page is shorter than `perPage`. -/
def fetchLoop (api : Nat → List Repository) : Nat → Nat → List Repository →
    List Repository
  | 0, _, acc => acc
  | fuel + 1, page, acc =>
    let data := api page
    if data.length = 0 then acc
    else if data.length < perPage then acc ++ data
    else fetchLoop api fuel (page + 1) (acc ++ data)

/-- All pages of the remote list, fetched from page 1 with ample fuel. -/
def fetchAllPages (remote : List Repository) : List Repository :=
  fetchLoop (pageOf remote) (remote.length + 1) 1 []

/-- The discoverer's error outcomes: a 403 from the transport is
re-raised as the distinct rate-limit error, anything else propagates. -/
inductive DiscErr where
  | rateLimited
  | other (msg : String)
deriving DecidableEq, Repr

/-- What one call to `discoverRepositories` produces: the thrown error or
the returned (filtered) list, plus the cache file afterwards. -/
structure DiscoverResult where
  result : Except DiscErr (List Repository)
  disk : CacheDisk
deriving Repr

/-- `discoverRepositories`: unless `forceRefresh`, consult the cache and
return the filtered cached list on a hit.  On a miss, run the paginated
fetch (`fetch` is the transport outcome: the full remote list, or the
error the loop throws); cache the full unfiltered list, then filter. -/
def discoverRepositories (config : DiscoveryConfig) (forceRefresh : Bool)
    (now : Int) (disk : CacheDisk)
    (fetch : Except DiscErr (List Repository)) : DiscoverResult :=
  match (if forceRefresh then none else getCachedRepos config now disk) with
  | some cached => ⟨.ok (filterRepositories config cached), disk⟩
  | none =>
    match fetch with
    | .error e => ⟨.error e, disk⟩
    | .ok remote =>
      let repos := fetchAllPages remote
      ⟨.ok (filterRepositories config repos), cacheRepos config now repos⟩

/-! ## Process lock (secrets-sync-daemon.ts: isLocked / createLock) -/

/-- The persisted `LockRecord`: holder pid and acquisition instant. -/
structure LockRecord where
  pid : Nat
  startedAt : Nat
deriving DecidableEq, Repr

/-- What the lock file holds when it exists: a well-formed record, or
bytes that fail to parse. -/
inductive LockContent where
  | valid (r : LockRecord)
  | corrupt
deriving DecidableEq, Repr

/-- The lock file on disk (`none` = absent). -/
abbrev LockDisk := Option LockContent

/-- `isLocked`: no file → free; unparseable file → remove it, free;
valid record → locked exactly when the signal-zero probe of its pid
succeeds, removing the stale record otherwise.  Returns the verdict and
the lock file afterwards. -/
def isLocked (live : Nat → Bool) (lock : LockDisk) : Bool × LockDisk :=
  match lock with
  | none => (false, none)
  | some LockContent.corrupt => (false, none)
  | some (LockContent.valid r) =>
    if live r.pid then (true, lock) else (false, none)

/-- `createLock`: write a record with the current pid and instant.  The
source wraps the directory creation and write in a `try` whose `catch`
only logs, so when the filesystem fails (`fsOk = false`) the lock file is
left as it was and no error escapes. -/
def createLock (fsOk : Bool) (pid now : Nat) (lock : LockDisk) : LockDisk :=
  if fsOk then some (LockContent.valid { pid := pid, startedAt := now })
  else lock

/-- The lock-acquisition prefix of `start`: refuse when `isLocked`,
otherwise write the new record.  First component: whether acquisition
proceeded. -/
def tryAcquire (live : Nat → Bool) (pid now : Nat) (fsOk : Bool)
    (lock : LockDisk) : Bool × LockDisk :=
  match isLocked live lock with
  | (true, lock') => (false, lock')
  | (false, lock') => (true, createLock fsOk pid now lock')

/-! ## Daemon scheduler: the run-loop event trace

`start` runs `performSync` to completion (executor awaited, status saved)
and only then, when `enabled`, calls `scheduleNextSync`, which arms a
timer whose callback again awaits `performSync` before re-arming.  The
process is single-threaded, so a run observing `k` timer firings is the
sequential event trace below. -/

/-- Observable daemon events: pass `n` begins (executor invoked), pass
`n`'s updated status is saved, the timer for pass `n` is armed. -/
inductive DEvent where
  | passStart (n : Nat)
  | passSave (n : Nat)
  | armTimer (n : Nat)
deriving DecidableEq, Repr

/-- The events of one `performSync` call: invoke the executor, then save
the updated status. -/
def performSyncTrace (n : Nat) : List DEvent :=
  [DEvent.passStart n, DEvent.passSave n]

/-- The events of `scheduleNextSync` re-armed through `k` timer firings,
the next pass being numbered `n`: arm the timer, and when it fires run
the pass to completion before re-arming. -/
def syncLoopTrace : Nat → Nat → List DEvent
  | 0, _ => []
  | k + 1, n => DEvent.armTimer n :: (performSyncTrace n ++ syncLoopTrace k (n + 1))

/-- The trace of `start` after lock acquisition, observed through `k`
timer firings: the initial pass runs unconditionally; only when
`enabled` is the periodic loop armed. -/
def startTrace (enabled : Bool) (k : Nat) : List DEvent :=
  performSyncTrace 0 ++ (if enabled then syncLoopTrace k 1 else [])

/-- `start`: refuse (throw) when another live instance holds the lock;
otherwise create the lock — a filesystem failure there is swallowed —
and run the loop.  Returns the lock file afterwards and the event
trace. -/
def start (live : Nat → Bool) (pid now : Nat) (fsOk : Bool) (enabled : Bool)
    (k : Nat) (lock : LockDisk) : Except String (LockDisk × List DEvent) :=
  match isLocked live lock with
  | (true, _) => .error "Another instance is already running"
  | (false, lock') =>
    .ok (createLock fsOk pid now lock', startTrace enabled k)

/-! ## Sync state store (SyncStatus, loadStatus, performSync's update) -/

/-- Per-repository outcome kind. -/
inductive RepoState where
  | success
  | failed
  | pending
deriving DecidableEq, Repr

/-- `RepoSyncStatus`: one repository's ledger entry. -/
structure RepoSyncStatus where
  lastSync : String
  status : RepoState
  message : String
deriving DecidableEq, Repr

/-- `SyncStatus`: the persisted ledger.  The `repositories` record is an
association list from repository name to entry. -/
structure SyncStatus where
  lastSync : String
  nextSync : String
  successCount : Nat
  failureCount : Nat
  repositories : List (String × RepoSyncStatus)
deriving DecidableEq, Repr

/-- The zero-valued default status returned when the state file is
absent or fails to parse. -/
def defaultStatus : SyncStatus :=
  { lastSync := "", nextSync := "", successCount := 0, failureCount := 0,
    repositories := [] }

/-- The state file on disk: `none` = no file, `some none` = unreadable
or unparseable, `some (some s)` = a well-formed ledger. -/
abbrev StateDisk := Option (Option SyncStatus)

/-- `loadStatus`: the parsed ledger, or the zero default when the file
is absent or corrupt (the read error is swallowed). -/
def loadStatus (disk : StateDisk) : SyncStatus :=
  match disk with
  | some (some s) => s
  | _ => defaultStatus

/-- The awaited executor's outcome as `performSync` sees it: it resolved
with a success flag and message, or it threw. -/
inductive SyncResult where
  | ok (success : Bool) (message : String)
  | threw
deriving DecidableEq, Repr

/-- The status update one `performSync` pass applies between its
`loadStatus` and `saveStatus`: stamp `lastSync` with the pass's start
instant and `nextSync` with the computed next instant, then increment
the success counter when the executor resolved successfully and the
failure counter when it resolved unsuccessfully or threw. -/
def performSyncStep (timestamp next : String) (r : SyncResult)
    (st : SyncStatus) : SyncStatus :=
  match r with
  | .ok true _ =>
    { st with lastSync := timestamp, nextSync := next,
              successCount := st.successCount + 1 }
  | .ok false _ =>
    { st with lastSync := timestamp, nextSync := next,
              failureCount := st.failureCount + 1 }
  | .threw =>
    { st with lastSync := timestamp, nextSync := next,
              failureCount := st.failureCount + 1 }

/-- One full `performSync` pass against the state file: load, update,
and the status that gets saved. -/
def performSyncPass (timestamp next : String) (r : SyncResult)
    (disk : StateDisk) : SyncStatus :=
  performSyncStep timestamp next r (loadStatus disk)

/-- A sequence of completed passes folded over their executor outcomes
(each pass reloads the saved status of the one before). -/
def runPasses (passes : List (String × String × SyncResult))
    (st : SyncStatus) : SyncStatus :=
  passes.foldl (fun acc p => performSyncStep p.1 p.2.1 p.2.2 acc) st

/-! ## Filesystem write discipline (saveStatus / cacheRepos)

Both persistence routines call `fs.writeFileSync(file, json)` on the
final path.  To compare that against a write-temp-then-rename
discipline, a write routine is its list of primitive filesystem steps,
and a crash may interrupt any single step, leaving a torn file. -/

/-- Primitive persistence steps over a value of type `α`. -/
inductive WriteStep (α : Type) where
  | directWrite (val : α)
  | writeTemp (val : α)
  | renameTempToTarget
deriving DecidableEq, Repr

/-- A persisted file's state: absent, a complete record, or the torn
remains of an interrupted write. -/
inductive FileState (α : Type) where
  | absent
  | complete (val : α)
  | torn
deriving DecidableEq, Repr

/-- Target and temp file together. -/
structure FsPair (α : Type) where
  target : FileState α
  temp : FileState α
deriving DecidableEq, Repr

/-- `saveStatus`'s persistence steps: one direct `writeFileSync` of the
serialized status to the state file. -/
def saveStatusSteps (status : SyncStatus) : List (WriteStep SyncStatus) :=
  [WriteStep.directWrite status]

/-- `cacheRepos`'s persistence steps: one direct `writeFileSync` of the
serialized entry to the cache file. -/
def cacheReposSteps (entry : CacheData) : List (WriteStep CacheData) :=
  [WriteStep.directWrite entry]

/-- Run one step to completion. -/
def runStep {α : Type} (st : FsPair α) : WriteStep α → FsPair α
  | WriteStep.directWrite v => { st with target := FileState.complete v }
  | WriteStep.writeTemp v => { st with temp := FileState.complete v }
  | WriteStep.renameTempToTarget =>
    { target := st.temp, temp := FileState.absent }

/-- Interrupt one step partway: a direct write tears the target, a temp
write tears only the temp file, a rename is atomic and either happened
or did not (interruption leaves the old target). -/
def crashStep {α : Type} (st : FsPair α) : WriteStep α → FsPair α
  | WriteStep.directWrite _ => { st with target := FileState.torn }
  | WriteStep.writeTemp _ => { st with temp := FileState.torn }
  | WriteStep.renameTempToTarget => st

/-- Run all steps to completion. -/
def runSteps {α : Type} (steps : List (WriteStep α)) (st : FsPair α) :
    FsPair α :=
  steps.foldl runStep st

/-- Run the first `k` steps to completion, then crash inside the next
step (when one remains). -/
def runStepsCrash {α : Type} : List (WriteStep α) → Nat → FsPair α → FsPair α
  | [], _, st => st
  | s :: _, 0, st => crashStep st s
  | s :: rest, k + 1, st => runStepsCrash rest k (runStep st s)

/-! ## Theorems -/

/-- C3: a cache read returns the cached repository list exactly when the
entry exists on disk, parses, is younger than the 1-hour TTL and was
written for the requested organization — and then it returns that entry's
full list; in every other case (no file, corrupt file, organization
mismatch, age at or beyond the TTL) it returns absent. -/
theorem getCachedRepos_hit_iff (config : DiscoveryConfig) (now : Int)
    (disk : CacheDisk) (repos : List Repository) :
    getCachedRepos config now disk = some repos ↔
      ∃ c, disk = some (some c) ∧ now - c.lastFetch < CACHE_TTL_MS ∧
        c.organization = config.organization ∧ repos = c.repositories := by
  match disk with
  | none => simp [getCachedRepos]
  | some none => simp [getCachedRepos]
  | some (some c) =>
    by_cases h : now - c.lastFetch < CACHE_TTL_MS ∧
        c.organization = config.organization
    · simp only [getCachedRepos, if_pos h, Option.some_inj]
      constructor
      · rintro rfl
        exact ⟨c, rfl, h.1, h.2, rfl⟩
      · rintro ⟨c', hc, -, -, hr⟩
        rw [hc, hr]
    · simp only [getCachedRepos, if_neg h, Option.some_inj]
      constructor
      · intro hfalse; cases hfalse
      · rintro ⟨c', hc, hfresh, horg, -⟩
        subst hc
        exact absurd ⟨hfresh, horg⟩ h

/-- Counter bookkeeping across a fold of passes. -/
theorem runPasses_counter_sum (passes : List (String × String × SyncResult)) :
    ∀ st : SyncStatus,
      (runPasses passes st).successCount + (runPasses passes st).failureCount
        = st.successCount + st.failureCount + passes.length := by
  induction passes with
  | nil => intro st; simp [runPasses]
  | cons p rest ih =>
    intro st
    have hstep : (performSyncStep p.1 p.2.1 p.2.2 st).successCount
        + (performSyncStep p.1 p.2.1 p.2.2 st).failureCount
        = st.successCount + st.failureCount + 1 := by
      rcases p with ⟨ts, ns, r⟩
      match r with
      | SyncResult.ok true m => simp [performSyncStep]; omega
      | SyncResult.ok false m => simp [performSyncStep]; omega
      | SyncResult.threw => simp [performSyncStep]; omega
    have h2 := ih (performSyncStep p.1 p.2.1 p.2.2 st)
    simp only [runPasses, List.foldl_cons, List.length_cons] at h2 ⊢
    omega

/-- C4: each completed pass increments exactly one of the two counters —
success when the executor resolved successfully, failure when it resolved
unsuccessfully or threw — and never decrements either, so after `k`
completed passes from the zero default the counters sum to `k`. -/
theorem performSync_counter_discipline :
    ∀ (ts ns msg : String) (st : SyncStatus),
      (performSyncStep ts ns (SyncResult.ok true msg) st
        = { st with lastSync := ts, nextSync := ns,
                    successCount := st.successCount + 1 }) ∧
      (performSyncStep ts ns (SyncResult.ok false msg) st
        = { st with lastSync := ts, nextSync := ns,
                    failureCount := st.failureCount + 1 }) ∧
      (performSyncStep ts ns SyncResult.threw st
        = { st with lastSync := ts, nextSync := ns,
                    failureCount := st.failureCount + 1 }) ∧
      (∀ r : SyncResult,
        st.successCount ≤ (performSyncStep ts ns r st).successCount ∧
        st.failureCount ≤ (performSyncStep ts ns r st).failureCount ∧
        (performSyncStep ts ns r st).successCount
            + (performSyncStep ts ns r st).failureCount
          = st.successCount + st.failureCount + 1) ∧
      (∀ passes : List (String × String × SyncResult),
        (runPasses passes defaultStatus).successCount
          + (runPasses passes defaultStatus).failureCount = passes.length) := by
  intro ts ns msg st
  refine ⟨rfl, rfl, rfl, ?_, ?_⟩
  · intro r
    match r with
    | SyncResult.ok true m => simp [performSyncStep]; omega
    | SyncResult.ok false m => simp [performSyncStep]; omega
    | SyncResult.threw => simp [performSyncStep]; omega
  · intro passes
    have := runPasses_counter_sum passes defaultStatus
    simpa [defaultStatus] using this

/-- C10: a pass's status update touches only `lastSync`, `nextSync` and
the two counters; the `repositories` map of the saved status is exactly
the one that was loaded, in the success, failure and throw paths alike. -/
theorem performSync_repositories_frame :
    ∀ (ts ns : String) (r : SyncResult) (disk : StateDisk) (st : SyncStatus),
      (performSyncPass ts ns r disk).repositories
          = (loadStatus disk).repositories ∧
      (performSyncStep ts ns r st).repositories = st.repositories := by
  intro ts ns r disk st
  constructor <;>
    · match r with
      | SyncResult.ok true m => rfl
      | SyncResult.ok false m => rfl
      | SyncResult.threw => rfl

/-- C1: with the filesystem healthy, lock acquisition is refused exactly
when a parseable lock record exists whose recorded pid answers the
signal-zero probe; a record whose pid is not live is deleted as stale,
and whenever acquisition proceeds the lock file afterwards holds a fresh
record carrying the current pid and instant. -/
theorem tryAcquire_refusal_iff_live_holder :
    ∀ (live : Nat → Bool) (pid now : Nat) (lock : LockDisk),
      ((tryAcquire live pid now true lock).1 = false ↔
        ∃ r, lock = some (LockContent.valid r) ∧ live r.pid = true) ∧
      (∀ r, lock = some (LockContent.valid r) → live r.pid = false →
        isLocked live lock = (false, none)) ∧
      ((tryAcquire live pid now true lock).1 = true →
        (tryAcquire live pid now true lock).2
          = some (LockContent.valid { pid := pid, startedAt := now })) := by
  intro live pid now lock
  refine ⟨?_, ?_, ?_⟩
  · match lock with
    | none => simp [tryAcquire, isLocked]
    | some LockContent.corrupt => simp [tryAcquire, isLocked]
    | some (LockContent.valid r) =>
      by_cases h : live r.pid
      · simp only [tryAcquire, isLocked, if_pos h]
        constructor
        · intro _; exact ⟨r, rfl, h⟩
        · intro _; trivial
      · simp only [tryAcquire, isLocked, if_neg h, createLock, if_pos rfl]
        constructor
        · intro hfalse; cases hfalse
        · rintro ⟨r', hr, hlive⟩
          have : r = r' := by
            have h1 : LockContent.valid r = LockContent.valid r' :=
              Option.some_inj.mp hr
            cases h1; rfl
          subst this
          exact absurd hlive (by simpa using h)
  · rintro r rfl h
    simp [isLocked, h]
  · match lock with
    | none => intro _; simp [tryAcquire, isLocked, createLock]
    | some LockContent.corrupt => intro _; simp [tryAcquire, isLocked, createLock]
    | some (LockContent.valid r) =>
      by_cases h : live r.pid
      · simp [tryAcquire, isLocked, h]
      · simp [tryAcquire, isLocked, h, createLock]

/-- A concrete configuration for organization `Acme`, keeping
everything. -/
def cfgAcme : DiscoveryConfig :=
  { organization := "Acme", includeArchived := true, includePrivate := true,
    excludeRepos := [] }

/-- A concrete fresh cache entry for `Acme`, written at instant 0. -/
def acmeEntry : CacheData :=
  { repositories := [], lastFetch := 0, organization := "Acme" }

/-- C5 counterexample: with `forceRefresh = true` the cache is never
consulted, so a call made while a valid (fresh, organization-matching)
cache entry sits on disk still fails when the live fetch fails — the
claim's "in every other case discover returns a repository list" is
false for forced refreshes. -/
theorem discover_fails_despite_valid_cache :
    getCachedRepos cfgAcme 0 (some (some acmeEntry)) = some [] ∧
    (discoverRepositories cfgAcme true 0 (some (some acmeEntry))
        (Except.error (DiscErr.other "network failure"))).result
      = Except.error (DiscErr.other "network failure") := by
  constructor <;> rfl

/-- C5 amended: `discoverRepositories` fails with an error exactly when
the live paginated fetch fails **and** the cache was not used — because
`forceRefresh` was requested or no valid (fresh, organization-matching)
entry exists; in particular every call with `forceRefresh = false` made
while a valid cache entry exists returns a repository list. -/
theorem discover_error_iff_fetch_error_and_cache_unused :
    ∀ (config : DiscoveryConfig) (forceRefresh : Bool) (now : Int)
      (disk : CacheDisk) (fetch : Except DiscErr (List Repository))
      (e : DiscErr),
      (discoverRepositories config forceRefresh now disk fetch).result
          = Except.error e ↔
        (fetch = Except.error e ∧
          (forceRefresh = true ∨ getCachedRepos config now disk = none)) := by
  intro config forceRefresh now disk fetch e
  match forceRefresh with
  | true =>
    match fetch with
    | .error e' => simp [discoverRepositories]
    | .ok remote => simp [discoverRepositories]
  | false =>
    match hc : getCachedRepos config now disk with
    | some cached => simp [discoverRepositories, hc]
    | none =>
      match fetch with
      | .error e' => simp [discoverRepositories, hc]
      | .ok remote => simp [discoverRepositories, hc]

/-- C7: whenever the lock is free, `start` succeeds and its trace opens
with pass 0's events — no timer is armed before the first pass — for
both values of `enabled`; `enabled = false` yields exactly the initial
pass and nothing more, while `enabled = true` arms the timer for pass 1
after it. -/
theorem start_runs_initial_pass_regardless_of_enabled
    (live : Nat → Bool) (pid now : Nat) (fsOk enabled : Bool) (k : Nat)
    (lock : LockDisk) (h : (isLocked live lock).1 = false) :
    ∃ tr, start live pid now fsOk enabled k lock
        = Except.ok (createLock fsOk pid now (isLocked live lock).2, tr) ∧
      tr.take 2 = [DEvent.passStart 0, DEvent.passSave 0] ∧
      (∀ n, tr.head? ≠ some (DEvent.armTimer n)) ∧
      (enabled = false → tr = [DEvent.passStart 0, DEvent.passSave 0]) ∧
      (enabled = true → 0 < k → DEvent.armTimer 1 ∈ tr) := by
  rcases hi : isLocked live lock with ⟨b, l'⟩
  have hb : b = false := by rw [hi] at h; exact h
  subst hb
  refine ⟨startTrace enabled k, ?_, ?_, ?_, ?_, ?_⟩
  · simp only [start, hi]
  · simp [startTrace, performSyncTrace]
  · intro n
    simp [startTrace, performSyncTrace]
  · rintro rfl
    simp [startTrace, performSyncTrace]
  · rintro rfl hk
    match k, hk with
    | k' + 1, _ =>
      simp [startTrace, performSyncTrace, syncLoopTrace]

/-- Witness for C7's theorem at a concrete input: empty lock file, no
live process, `enabled = false`, three scheduled firings. -/
theorem start_runs_initial_pass_witness :
    ∃ tr, start (fun _ => false) 7 5 true false 3 none
        = Except.ok (createLock true 7 5 (isLocked (fun _ => false) none).2, tr) ∧
      tr.take 2 = [DEvent.passStart 0, DEvent.passSave 0] ∧
      (∀ n, tr.head? ≠ some (DEvent.armTimer n)) ∧
      (false = false → tr = [DEvent.passStart 0, DEvent.passSave 0]) ∧
      (false = true → 0 < 3 → DEvent.armTimer 1 ∈ tr) :=
  start_runs_initial_pass_regardless_of_enabled (fun _ => false) 7 5 true false 3
    none (by decide)

/-- C9 counterexample: with the filesystem refusing the state-directory
creation and lock write (`fsOk = false`), `start` still succeeds — the
source's `createLock` catches the error and only logs — so the daemon
runs without any lock record instead of exiting non-zero. -/
theorem start_continues_without_lock_on_fs_failure :
    start (fun _ => false) 42 0 false true 1 none
      = Except.ok (none, [DEvent.passStart 0, DEvent.passSave 0,
          DEvent.armTimer 1, DEvent.passStart 1, DEvent.passSave 1]) := by
  rfl

/-- C9 amended: exactly one condition is fatal at startup — "already
running" (a parseable lock record whose pid is live); inability to
create the state directory or write the lock record is caught and
logged, and `start` proceeds without a lock record, with no retry. -/
theorem start_error_iff_already_running :
    ∀ (live : Nat → Bool) (pid now : Nat) (fsOk enabled : Bool) (k : Nat)
      (lock : LockDisk),
      ((∃ msg, start live pid now fsOk enabled k lock = Except.error msg) ↔
        ∃ r, lock = some (LockContent.valid r) ∧ live r.pid = true) ∧
      (start live pid now false enabled k none
        = Except.ok (none, startTrace enabled k)) := by
  intro live pid now fsOk enabled k lock
  constructor
  · match lock with
    | none => simp [start, isLocked]
    | some LockContent.corrupt => simp [start, isLocked]
    | some (LockContent.valid r) =>
      by_cases h : live r.pid
      · simp only [start, isLocked, if_pos h]
        constructor
        · intro _; exact ⟨r, rfl, h⟩
        · intro _; exact ⟨"Another instance is already running", rfl⟩
      · simp only [start, isLocked, if_neg h]
        constructor
        · rintro ⟨msg, hmsg⟩; cases hmsg
        · rintro ⟨r', hr, hlive⟩
          have : r = r' := by
            have h1 : LockContent.valid r = LockContent.valid r' :=
              Option.some_inj.mp hr
            cases h1; rfl
          subst this
          exact absurd hlive (by simpa using h)
  · simp [start, isLocked, createLock]

/-- Whether a persistence step is a direct write to the target. -/
def WriteStep.isDirect {α : Type} : WriteStep α → Bool
  | WriteStep.directWrite _ => true
  | _ => false

/-- A concrete non-default ledger. -/
def sampleStatus : SyncStatus :=
  { lastSync := "2026-01-01T00:00:00Z", nextSync := "2026-01-01T06:00:00Z",
    successCount := 3, failureCount := 1, repositories := [] }

/-- C6 counterexample: both persistence routines are a single direct
`writeFileSync` of the target — no temp file, no rename — so a save
interrupted partway tears the state file: the previously persisted
complete record (here the default ledger) does not remain intact. -/
theorem interrupted_save_tears_prior_record :
    (saveStatusSteps sampleStatus).all WriteStep.isDirect = true ∧
    (cacheReposSteps acmeEntry).all WriteStep.isDirect = true ∧
    (runStepsCrash (saveStatusSteps sampleStatus) 0
        { target := FileState.complete defaultStatus,
          temp := FileState.absent }).target = FileState.torn ∧
    FileState.torn ≠ FileState.complete defaultStatus := by
  refine ⟨rfl, rfl, rfl, ?_⟩
  intro hfalse
  cases hfalse

/-- C6 amended: both writes fully replace the prior file, but by a
single direct overwrite rather than write-temp-then-rename; an
uninterrupted save installs the complete new record whatever was there
before, while a torn or unreadable file is treated on the next read as
absent — the default ledger, a cache miss — so partial data is never
surfaced. -/
theorem save_full_replacement_and_self_healing_reads :
    ∀ (status : SyncStatus) (entry : CacheData) (t tmp : FileState SyncStatus)
      (t2 tmp2 : FileState CacheData) (config : DiscoveryConfig) (now : Int),
      runSteps (saveStatusSteps status) { target := t, temp := tmp }
        = { target := FileState.complete status, temp := tmp } ∧
      runSteps (cacheReposSteps entry) { target := t2, temp := tmp2 }
        = { target := FileState.complete entry, temp := tmp2 } ∧
      loadStatus (some none) = defaultStatus ∧
      getCachedRepos config now (some none) = none := by
  intro status entry t tmp t2 tmp2 config now
  exact ⟨rfl, rfl, rfl, rfl⟩

/-- The fetch loop on the paged remote list: with fuel at least the
number of remaining entries, starting at page `n + 1` appends exactly
the remote entries from position `n * perPage` on. -/
theorem fetchLoop_pageOf_drop (remote : List Repository) :
    ∀ (fuel n : Nat) (acc : List Repository),
      (remote.drop (n * perPage)).length ≤ fuel →
      fetchLoop (pageOf remote) fuel (n + 1) acc
        = acc ++ remote.drop (n * perPage) := by
  intro fuel
  induction fuel with
  | zero =>
    intro n acc h
    have hnil : remote.drop (n * perPage) = [] :=
      List.length_eq_zero.mp (Nat.le_zero.mp h)
    simp [fetchLoop, hnil]
  | succ f ih =>
    intro n acc h
    have hpage : pageOf remote (n + 1) = (remote.drop (n * perPage)).take perPage := by
      simp [pageOf]
    by_cases h0 : remote.drop (n * perPage) = []
    · simp [fetchLoop, hpage, h0]
    · have hlen0 : (remote.drop (n * perPage)).length ≠ 0 := by
        intro hz
        exact h0 (List.length_eq_zero.mp hz)
      by_cases hshort : (remote.drop (n * perPage)).length < perPage
      · have htake : (remote.drop (n * perPage)).take perPage
            = remote.drop (n * perPage) :=
          List.take_of_length_le (le_of_lt hshort)
        have htlen : ((remote.drop (n * perPage)).take perPage).length ≠ 0 := by
          rw [htake]; exact hlen0
        simp only [fetchLoop, hpage, htake]
        rw [if_neg hlen0, if_pos hshort]
      · have htlen : ((remote.drop (n * perPage)).take perPage).length = perPage := by
          rw [List.length_take]
          omega
        have hrec : remote.drop ((n + 1) * perPage)
            = (remote.drop (n * perPage)).drop perPage := by
          rw [List.drop_drop]
          congr 1
          ring
        have hih : (remote.drop ((n + 1) * perPage)).length ≤ f := by
          rw [hrec, List.length_drop]
          have := List.length_drop (n * perPage) remote
          simp only [perPage] at *
          omega
        have := ih (n + 1) (acc ++ (remote.drop (n * perPage)).take perPage) hih
        simp only [fetchLoop, hpage]
        rw [if_neg (by rw [htlen]; simp [perPage]), if_neg (by rw [htlen]; omega)]
        rw [this, hrec, List.append_assoc, List.take_append_drop]

/-- The whole paginated fetch, from page 1 with ample fuel, accumulates
exactly the full remote list. -/
theorem fetchAllPages_eq (remote : List Repository) :
    fetchAllPages remote = remote := by
  have h := fetchLoop_pageOf_drop remote (remote.length + 1) 0 []
  simp only [Nat.zero_mul, List.drop_zero, List.nil_append] at h
  exact h (by omega)


theorem filterRepositories_eq_filter (config : DiscoveryConfig)
    (repos : List Repository) :
    filterRepositories config repos = repos.filter (keepRepo config) := by
  rcases config with ⟨org, ia, ip, ex⟩
  cases ia <;> cases ip <;> rcases ex with _ | ⟨e, ex'⟩ <;>
    simp [filterRepositories, List.filter_filter] <;>
    first
      | (symm; rw [List.filter_eq_self]; intro r _; simp [keepRepo])
      | (apply List.filter_congr; intro r _;
         cases hA : r.archived <;> cases hP : r.«private» <;>
           simp [keepRepo, hA, hP])

/-- C8: on a cache miss (or forced refresh) the discoverer accumulates
fixed-size pages from page 1, stopping exactly at the first short page,
which yields the full remote list; that full unfiltered list is what
gets written to the cache, while the returned list is the pure pointwise
filter (archived / private / excluded-by-name) of it — and the same pure
filter is applied to a cached list on a hit. -/
theorem discover_pagination_cache_then_filter :
    ∀ (config : DiscoveryConfig) (now : Int) (disk : CacheDisk)
      (remote : List Repository),
      fetchAllPages remote = remote ∧
      discoverRepositories config true now disk (Except.ok remote)
        = ⟨Except.ok (remote.filter (keepRepo config)),
           cacheRepos config now remote⟩ ∧
      (getCachedRepos config now disk = none →
        discoverRepositories config false now disk (Except.ok remote)
          = ⟨Except.ok (remote.filter (keepRepo config)),
             cacheRepos config now remote⟩) ∧
      (∀ repos, filterRepositories config repos
        = repos.filter (keepRepo config)) ∧
      (∀ cached, getCachedRepos config now disk = some cached →
        discoverRepositories config false now disk (Except.ok remote)
          = ⟨Except.ok (cached.filter (keepRepo config)), disk⟩) := by
  intro config now disk remote
  refine ⟨fetchAllPages_eq remote, ?_, ?_, filterRepositories_eq_filter config, ?_⟩
  · simp [discoverRepositories, fetchAllPages_eq, filterRepositories_eq_filter]
  · intro hc
    simp [discoverRepositories, hc, fetchAllPages_eq, filterRepositories_eq_filter]
  · intro cached hc
    simp [discoverRepositories, hc, filterRepositories_eq_filter]

/-! ## The scheduler trace: splitting and counting lemmas for C2 -/

/-- Splitting the re-arm loop after its first `n` blocks. -/
theorem syncLoopTrace_split (n : Nat) :
    ∀ (k m : Nat), n ≤ k →
      syncLoopTrace k m = syncLoopTrace n m ++ syncLoopTrace (k - n) (m + n) := by
  induction n with
  | zero => intro k m _; simp [syncLoopTrace]
  | succ n ih =>
    intro k m h
    match k, h with
    | k' + 1, h =>
      have h' : n ≤ k' := by omega
      have hrec := ih k' (m + 1) h'
      have e1 : k' + 1 - (n + 1) = k' - n := by omega
      have e2 : m + (n + 1) = m + 1 + n := by omega
      simp only [syncLoopTrace, performSyncTrace, e1, e2, List.cons_append,
        List.append_assoc, List.cons.injEq, true_and]
      rw [hrec]

/-- Each pass's save event occurs once in the loop trace for the passes
the loop covers, and never otherwise. -/
theorem syncLoopTrace_count_save (j : Nat) :
    ∀ (k m : Nat), (syncLoopTrace k m).count (DEvent.passSave j)
      = if m ≤ j ∧ j < m + k then 1 else 0 := by
  intro k
  induction k with
  | zero =>
    intro m
    rw [if_neg (by omega)]
    simp [syncLoopTrace]
  | succ k ih =>
    intro m
    have hrec := ih (m + 1)
    simp [syncLoopTrace, performSyncTrace, List.count_cons, List.count_append,
      hrec]
    split_ifs <;> omega

/-- Likewise for the pass-start events. -/
theorem syncLoopTrace_count_start (j : Nat) :
    ∀ (k m : Nat), (syncLoopTrace k m).count (DEvent.passStart j)
      = if m ≤ j ∧ j < m + k then 1 else 0 := by
  intro k
  induction k with
  | zero =>
    intro m
    rw [if_neg (by omega)]
    simp [syncLoopTrace]
  | succ k ih =>
    intro m
    have hrec := ih (m + 1)
    simp [syncLoopTrace, performSyncTrace, List.count_cons, List.count_append,
      hrec]
    split_ifs <;> omega

/-- Likewise for the timer-arming events. -/
theorem syncLoopTrace_count_arm (j : Nat) :
    ∀ (k m : Nat), (syncLoopTrace k m).count (DEvent.armTimer j)
      = if m ≤ j ∧ j < m + k then 1 else 0 := by
  intro k
  induction k with
  | zero =>
    intro m
    rw [if_neg (by omega)]
    simp [syncLoopTrace]
  | succ k ih =>
    intro m
    have hrec := ih (m + 1)
    simp [syncLoopTrace, performSyncTrace, List.count_cons, List.count_append,
      hrec]
    split_ifs <;> omega

/-- Per-event counts in the full daemon trace: each pass starts once and
saves once, and each timer is armed once. -/
theorem startTrace_counts (j k : Nat) :
    ((startTrace true k).count (DEvent.passSave j)
      = if j < k + 1 then 1 else 0) ∧
    ((startTrace true k).count (DEvent.passStart j)
      = if j < k + 1 then 1 else 0) ∧
    ((startTrace true k).count (DEvent.armTimer j)
      = if 1 ≤ j ∧ j < 1 + k then 1 else 0) := by
  have hs := syncLoopTrace_count_save j k 1
  have hp := syncLoopTrace_count_start j k 1
  have ha := syncLoopTrace_count_arm j k 1
  refine ⟨?_, ?_, ?_⟩ <;>
    simp [startTrace, performSyncTrace, List.count_cons, List.count_append,
      hs, hp, ha] <;>
    split_ifs <;> omega

/-- Inside the loop trace, each pass's save is immediately followed by
the arming of the next pass's timer, immediately followed by the next
pass's start. -/
theorem syncLoopTrace_seam (n : Nat) :
    ∀ (k m : Nat), m ≤ n → n + 1 < m + k →
      ∃ pre post, syncLoopTrace k m
        = pre ++ DEvent.passSave n :: DEvent.armTimer (n + 1)
            :: DEvent.passStart (n + 1) :: post := by
  intro k
  induction k with
  | zero => intro m h1 h2; omega
  | succ k ih =>
    intro m h1 h2
    by_cases hnm : n = m
    · subst hnm
      obtain ⟨k', rfl⟩ : ∃ k', k = k' + 1 := ⟨k - 1, by omega⟩
      refine ⟨[DEvent.armTimer n, DEvent.passStart n],
              DEvent.passSave (n + 1) :: syncLoopTrace k' (n + 2), ?_⟩
      simp [syncLoopTrace, performSyncTrace]
    · have h1' : m + 1 ≤ n := by omega
      have h2' : n + 1 < m + 1 + k := by omega
      obtain ⟨pre', post', hsplit⟩ := ih (m + 1) h1' h2'
      refine ⟨DEvent.armTimer m :: DEvent.passStart m :: DEvent.passSave m :: pre',
              post', ?_⟩
      simp [syncLoopTrace, performSyncTrace, hsplit]

/-- C2: in the daemon's run-loop trace, pass `n`'s save event is
followed — immediately — by the arming of the timer for pass `n + 1`,
which is followed by pass `n + 1`'s start; and each of these three
events occurs exactly once in the whole trace.  Hence state persistence
for pass `n` strictly precedes the scheduling of pass `n + 1`, which
strictly precedes pass `n + 1` itself: passes never overlap, whatever
the executor's duration, because the next timer is armed only after the
previous pass has fully completed. -/
theorem daemon_rearm_after_save (k n : Nat) (h : n < k) :
    ∃ pre post,
      startTrace true k
        = pre ++ DEvent.passSave n :: DEvent.armTimer (n + 1)
            :: DEvent.passStart (n + 1) :: post ∧
      (startTrace true k).count (DEvent.passSave n) = 1 ∧
      (startTrace true k).count (DEvent.armTimer (n + 1)) = 1 ∧
      (startTrace true k).count (DEvent.passStart (n + 1)) = 1 := by
  have hcs := (startTrace_counts n k).1
  have hcp := (startTrace_counts (n + 1) k).2.1
  have hca := (startTrace_counts (n + 1) k).2.2
  rw [if_pos (by omega)] at hcs
  rw [if_pos (by omega)] at hcp
  rw [if_pos (by omega)] at hca
  by_cases hn0 : n = 0
  · subst hn0
    obtain ⟨k', rfl⟩ : ∃ k', k = k' + 1 := ⟨k - 1, by omega⟩
    refine ⟨[DEvent.passStart 0], DEvent.passSave 1 :: syncLoopTrace k' 2,
      ?_, hcs, hca, hcp⟩
    simp [startTrace, performSyncTrace, syncLoopTrace]
  · obtain ⟨pre', post', hseam⟩ :=
      syncLoopTrace_seam n k 1 (by omega) (by omega)
    refine ⟨DEvent.passStart 0 :: DEvent.passSave 0 :: pre', post',
      ?_, hcs, hca, hcp⟩
    simp [startTrace, performSyncTrace, hseam]

/-- Witness for C2's theorem at a concrete input: a trace with two timer
firings, looking at the seam between pass 0 and pass 1. -/
theorem daemon_rearm_after_save_witness :
    ∃ pre post,
      startTrace true 2
        = pre ++ DEvent.passSave 0 :: DEvent.armTimer (0 + 1)
            :: DEvent.passStart (0 + 1) :: post ∧
      (startTrace true 2).count (DEvent.passSave 0) = 1 ∧
      (startTrace true 2).count (DEvent.armTimer (0 + 1)) = 1 ∧
      (startTrace true 2).count (DEvent.passStart (0 + 1)) = 1 :=
  daemon_rearm_after_save 2 0 (by omega)

end Foundation
